import Mathlib

/-!
# Concero × Lanca quiz backend — verification of the leaderboard and tournament logic

Shallow embedding of the handlers in `src/index.js` (the full-featured variant of the
server: submitResult, leaderboard, tournament endpoints, debug reset).  The document
store is modelled as explicit lists of documents; timestamps are epoch milliseconds
as `Int`; `new Date()` becomes an explicit `now` argument; configuration read from
the environment becomes explicit `Option` arguments.  A request field that may be
absent (`undefined`/`null` in JS) is an `Option`.
-/

namespace Concero

/-- A document of the `results` collection: one row per submitted quiz attempt
(`{username, IQ, correct, totalQuestions, date}` as inserted by `POST /api/submitResult`). -/
structure ScoreRecord where
  username : String
  IQ : Int
  correct : Int
  totalQuestions : Int
  date : Int
deriving Repr, DecidableEq

/-- A document of the `leaderboard` collection: the all-time best per user
(`{username, IQ, correct, totalQuestions, updatedAt}`). -/
structure BestRecord where
  username : String
  IQ : Int
  correct : Int
  totalQuestions : Int
  updatedAt : Int
deriving Repr, DecidableEq

/-- A document of the `tournament_results` collection
(`{username, tournamentId, score, correct, totalQuestions, timeSpent, submittedAt}`). -/
structure TournamentEntry where
  username : String
  tournamentId : String
  score : Int
  correct : Int
  totalQuestions : Int
  timeSpent : Int
  submittedAt : Int
deriving Repr, DecidableEq

/-- The `concero_quiz` database.  `results` is an `Option` because
`POST /api/debug/reset-history` drops that collection (`none` = collection absent);
an insert into an absent collection recreates it, as MongoDB does. -/
structure DB where
  results : Option (List ScoreRecord)
  leaderboard : List BestRecord
  tournament_results : List TournamentEntry
deriving Repr, DecidableEq

/-- Request body of `POST /api/submitResult`; `none` models an absent (`undefined`)
or `null` field. -/
structure SubmitRequest where
  username : Option String
  IQ : Option Int
  correct : Int
  totalQuestions : Int
deriving Repr, DecidableEq

/-- `insertOne` into `results` (auto-creates the collection when absent). -/
def insertResult (db : DB) (r : ScoreRecord) : DB :=
  { db with results := some (db.results.getD [] ++ [r]) }

/-- `updateOne({username}, {$set: {IQ, correct, totalQuestions, updatedAt}})`:
updates the first document matching the username. -/
def updateFirstBest (l : List BestRecord) (u : String) (iq c tq now : Int) :
    List BestRecord :=
  match l with
  | [] => []
  | b :: bs =>
    if b.username = u then
      { b with IQ := iq, correct := c, totalQuestions := tq, updatedAt := now } :: bs
    else
      b :: updateFirstBest bs u iq c tq now

/-- `POST /api/submitResult` (src/index.js lines 132-185).  Validation:
`!username || IQ === undefined || IQ === null` → 400.  On success: always insert one
history record into `results`, then create the `leaderboard` document if the user has
none, update it if the new IQ is strictly higher, and otherwise leave it alone.
Returns the HTTP status and the new database state. -/
def submitResult (req : SubmitRequest) (now : Int) (db : DB) : Nat × DB :=
  match req.username, req.IQ with
  | some u, some iq =>
    if u = "" then (400, db)
    else
      let db1 := insertResult db ⟨u, iq, req.correct, req.totalQuestions, now⟩
      match db1.leaderboard.find? (fun b => b.username == u) with
      | none =>
        (200, { db1 with
                leaderboard := db1.leaderboard ++
                  [⟨u, iq, req.correct, req.totalQuestions, now⟩] })
      | some existing =>
        if existing.IQ < iq then
          (200, { db1 with
                  leaderboard :=
                    updateFirstBest db1.leaderboard u iq req.correct req.totalQuestions now })
        else
          (200, db1)
  | _, _ => (400, db)

/-- `POST /api/debug/reset-history` (src/index.js lines 117-129): drop the `results`
collection; a `NamespaceNotFound` error (collection absent) is caught and reported as
success.  Returns status, response message, and the new state. -/
def resetHistory (db : DB) : Nat × String × DB :=
  match db.results with
  | some _ =>
    (200, "History (results) cleared. All-Time (leaderboard) preserved.",
     { db with results := none })
  | none => (200, "History already empty.", db)

/-- `getTournamentId` (src/index.js lines 274-279): the session id is a fixed textual
tag concatenated with the configured start instant string, or a fixed default when no
start is configured. -/
def getTournamentId (startTimeStr : Option String) : String :=
  match startTimeStr with
  | none => "default_tournament"
  | some s => "tournament_" ++ s

/-- Request body of `POST /api/submitTournamentResult`. -/
structure TournamentRequest where
  username : Option String
  score : Int
  timeSpent : Int
  correct : Int
  totalQuestions : Int
deriving Repr, DecidableEq

/-- `POST /api/submitTournamentResult` (src/index.js lines 333-364): validate the
username, look up an entry for (username, current session id); if one exists answer
403 and insert nothing, otherwise insert one entry stamped with the current session
id and the current time. -/
def submitTournamentResult (req : TournamentRequest) (startTimeStr : Option String)
    (now : Int) (db : DB) : Nat × DB :=
  match req.username with
  | none => (400, db)
  | some u =>
    if u = "" then (400, db)
    else
      let tid := getTournamentId startTimeStr
      match db.tournament_results.find?
          (fun e => e.username == u && e.tournamentId == tid) with
      | some _ => (403, db)
      | none =>
        (200, { db with
                tournament_results := db.tournament_results ++
                  [⟨u, tid, req.score, req.correct, req.totalQuestions,
                    req.timeSpent, now⟩] })

/-- Tournament status values. -/
inductive TStatus where
  | upcoming
  | active
  | ended
deriving Repr, DecidableEq

/-- Response of `GET /api/tournament-status`. -/
structure StatusResponse where
  status : TStatus
  startTime : Option Int
  endTime : Option Int
deriving Repr, DecidableEq

/-- Milliseconds in one day (UTC days in the JS epoch timeline are uniform). -/
def msPerDay : Int := 86400000

/-- `GET /api/tournament-status` (src/index.js lines 284-308).  With no configured
start: active with null bounds.  Otherwise the end is the configured end or start
plus 7 days, and the status is computed by two sequential overwrites:
`status = "active"; if (now < startTime) status = "upcoming"; if (now > endTime)
status = "ended";` — so the `ended` test wins when both fire. -/
def getTournamentStatus (startCfg endCfg : Option Int) (now : Int) : StatusResponse :=
  match startCfg with
  | none => ⟨.active, none, none⟩
  | some start =>
    let endT := match endCfg with
      | some e => e
      | none => start + 7 * msPerDay
    let status := if endT < now then TStatus.ended
                  else if now < start then TStatus.upcoming
                  else TStatus.active
    ⟨status, some start, some endT⟩

/-- Windowed timeframes of `GET /api/leaderboard` (the `all` and `tournament`
timeframes take separate code paths). -/
inductive Timeframe where
  | daily
  | weekly
  | monthly
deriving Repr, DecidableEq

/-- Window start computed by the leaderboard handler (src/index.js lines 227-237):
daily truncates `now` to the start of the current UTC day (`setUTCHours(0,0,0,0)`);
weekly and monthly subtract 7 resp. 30 days (`setUTCDate(getUTCDate() - n)`, which on
the uniform-86400000-ms UTC timeline is exactly `now - n` days). -/
def windowStart (tf : Timeframe) (now : Int) : Int :=
  match tf with
  | .daily => now - now % msPerDay
  | .weekly => now - 7 * msPerDay
  | .monthly => now - 30 * msPerDay

/-- Comparison of the aggregation's `$sort` stages `{ IQ: -1, date: 1 }` and
`{ IQ: -1, createdAt: 1 }` (the projected `createdAt` is the kept document's
`date`): IQ descending, ties by timestamp ascending. -/
def recLE (a b : ScoreRecord) : Bool :=
  decide (b.IQ < a.IQ ∨ (a.IQ = b.IQ ∧ a.date ≤ b.date))

/-- The `$group` stage keyed on `$username` with `$first` accumulators: from the
(already sorted) stream keep, for every username, the first document of its group. -/
def groupFirst : List ScoreRecord → List ScoreRecord
  | [] => []
  | r :: rs => r :: groupFirst (rs.filter (fun s => s.username != r.username))
termination_by l => l.length
decreasing_by
  simpa using Nat.lt_succ_of_le (List.length_filter_le _ rs)

/-- `GET /api/leaderboard?timeframe=daily|weekly|monthly` (src/index.js lines
227-265): `$match` on `date ≥ windowStart`, `$sort { IQ: -1, date: 1 }`, `$group` by
username keeping the first (= best, earliest) document, `$project` (a field rename,
the kept document's fields are returned unchanged), `$sort { IQ: -1, createdAt: 1 }`,
`$limit 50`. -/
def leaderboardWindow (tf : Timeframe) (now : Int) (results : List ScoreRecord) :
    List ScoreRecord :=
  let start := windowStart tf now
  let matched := results.filter (fun r => decide (start ≤ r.date))
  let grouped := groupFirst (matched.mergeSort recLE)
  (grouped.mergeSort recLE).take 50

/-- Comparison of `.sort({ IQ: -1, updatedAt: 1 })` on the `leaderboard`
collection: IQ descending, ties by `updatedAt` ascending. -/
def bestLE (a b : BestRecord) : Bool :=
  decide (b.IQ < a.IQ ∨ (a.IQ = b.IQ ∧ a.updatedAt ≤ b.updatedAt))

/-- `GET /api/leaderboard?timeframe=all` (src/index.js lines 218-225):
`find({}).sort({ IQ: -1, updatedAt: 1 }).limit(50)` over the `leaderboard`
collection. -/
def leaderboardAll (lb : List BestRecord) : List BestRecord :=
  (lb.mergeSort bestLE).take 50

/-! ## Helper lemmas -/

theorem insertResult_leaderboard (db : DB) (r : ScoreRecord) :
    (insertResult db r).leaderboard = db.leaderboard := rfl

/-- `findOne({username})` on a list whose prefix has no match returns the first
matching document. -/
theorem find_username_eq_some (u : String) (pre : List BestRecord) (b : BestRecord)
    (post : List BestRecord) (hpre : ∀ x ∈ pre, x.username ≠ u) (hb : b.username = u) :
    (pre ++ b :: post).find? (fun x => x.username == u) = some b := by
  induction pre with
  | nil => simp [List.find?, hb]
  | cons p ps ih =>
    have hp : ¬ (p.username = u) := hpre p (by simp)
    simpa [List.find?_cons, hp] using ih (fun x hx => hpre x (by simp [hx]))

/-- `updateOne({username}, {$set: ...})` rewrites exactly the first matching
document. -/
theorem updateFirstBest_append (u : String) (iq c tq now : Int) (pre : List BestRecord)
    (b : BestRecord) (post : List BestRecord)
    (hpre : ∀ x ∈ pre, x.username ≠ u) (hb : b.username = u) :
    updateFirstBest (pre ++ b :: post) u iq c tq now =
      pre ++ { b with IQ := iq, correct := c, totalQuestions := tq,
                      updatedAt := now } :: post := by
  induction pre with
  | nil => simp [updateFirstBest, hb]
  | cons p ps ih =>
    have hp : ¬ (p.username = u) := hpre p (by simp)
    simpa [updateFirstBest, hp] using ih (fun x hx => hpre x (by simp [hx]))

/-- Characterisation of a valid `POST /api/submitResult`: status 200, one history
record appended, tournament data untouched, and the leaderboard updated according to
the high-score policy. -/
theorem submitResult_success (req : SubmitRequest) (now : Int) (db : DB)
    (u : String) (iq : Int)
    (hu : req.username = some u) (hne : u ≠ "") (hiq : req.IQ = some iq) :
    (submitResult req now db).1 = 200 ∧
    (submitResult req now db).2.results =
      some (db.results.getD [] ++ [⟨u, iq, req.correct, req.totalQuestions, now⟩]) ∧
    (submitResult req now db).2.tournament_results = db.tournament_results ∧
    (submitResult req now db).2.leaderboard =
      (match db.leaderboard.find? (fun b => b.username == u) with
       | none => db.leaderboard ++ [⟨u, iq, req.correct, req.totalQuestions, now⟩]
       | some existing =>
         if existing.IQ < iq then
           updateFirstBest db.leaderboard u iq req.correct req.totalQuestions now
         else db.leaderboard) := by
  rcases req with ⟨ou, oiq, c, tq⟩
  simp only at hu hiq
  subst hu hiq
  simp only [submitResult, if_neg hne]
  cases hf : db.leaderboard.find? (fun b => b.username == u) with
  | none => simp [insertResult, hf]
  | some existing =>
    by_cases hlt : existing.IQ < iq <;>
      simp [insertResult, hf, hlt, updateFirstBest]

/-! ## Claims -/

/-- C5: a quiz-result submission fails with 400 exactly when the username is
absent/empty or the score is absent (undefined or null), and on such a failure the
database is unchanged. -/
theorem C5_validation (req : SubmitRequest) (now : Int) (db : DB) :
    ((submitResult req now db).1 = 400 ↔
      (req.username = none ∨ req.username = some "" ∨ req.IQ = none)) ∧
    ((submitResult req now db).1 = 400 → (submitResult req now db).2 = db) := by
  rcases req with ⟨ou, oiq, c, tq⟩
  cases ou with
  | none => simp [submitResult]
  | some s =>
    cases oiq with
    | none => simp [submitResult]
    | some i =>
      by_cases hs : s = ""
      · subst hs; simp [submitResult]
      · have h200 := (submitResult_success ⟨some s, some i, c, tq⟩ now db s i rfl hs rfl).1
        constructor
        · simp only [h200]
          simp [hs]
        · intro h; rw [h200] at h; cases h

/-- C5 witness: the concrete submission `{username: "", IQ: 50}` is rejected with 400
and leaves the empty database unchanged. -/
theorem C5_validation_witness :
    (submitResult ⟨some "", some 50, 5, 10⟩ 1 ⟨some [], [], []⟩).1 = 400 ∧
    (submitResult ⟨some "", some 50, 5, 10⟩ 1 ⟨some [], [], []⟩).2 = ⟨some [], [], []⟩ := by
  refine ⟨?_, ?_⟩
  · exact (C5_validation ⟨some "", some 50, 5, 10⟩ 1 ⟨some [], [], []⟩).1.mpr
      (Or.inr (Or.inl rfl))
  · exact (C5_validation ⟨some "", some 50, 5, 10⟩ 1 ⟨some [], [], []⟩).2
      ((C5_validation ⟨some "", some 50, 5, 10⟩ 1 ⟨some [], [], []⟩).1.mpr
        (Or.inr (Or.inl rfl)))

/-- C7: every successful quiz-result submission appends exactly one ScoreRecord with
the submitted username, score, correctCount and totalQuestions and the current
timestamp, regardless of what happens to the BestScoreRecord. -/
theorem C7_history_append (req : SubmitRequest) (now : Int) (db : DB)
    (u : String) (iq : Int)
    (hu : req.username = some u) (hne : u ≠ "") (hiq : req.IQ = some iq) :
    (submitResult req now db).1 = 200 ∧
    (submitResult req now db).2.results =
      some (db.results.getD [] ++ [⟨u, iq, req.correct, req.totalQuestions, now⟩]) := by
  have h := submitResult_success req now db u iq hu hne hiq
  exact ⟨h.1, h.2.1⟩

/-- C7 witness: a concrete successful submission appends exactly its own history
record. -/
theorem C7_history_append_witness :
    (submitResult ⟨some "a", some 80, 8, 10⟩ 1 ⟨some [⟨"b", 5, 1, 2, 0⟩], [], []⟩).1 = 200 ∧
    (submitResult ⟨some "a", some 80, 8, 10⟩ 1 ⟨some [⟨"b", 5, 1, 2, 0⟩], [], []⟩).2.results =
      some [⟨"b", 5, 1, 2, 0⟩, ⟨"a", 80, 8, 10, 1⟩] := by
  have h := C7_history_append ⟨some "a", some 80, 8, 10⟩ 1 ⟨some [⟨"b", 5, 1, 2, 0⟩], [], []⟩
    "a" 80 rfl (by decide) rfl
  exact ⟨h.1, h.2⟩

/-- C8: a submission with a strictly lower score than the stored best leaves the
`leaderboard` collection entirely unchanged, including `updatedAt`. -/
theorem C8_lower_score_frame (req : SubmitRequest) (now : Int) (db : DB)
    (u : String) (iq : Int) (b : BestRecord)
    (hu : req.username = some u) (hne : u ≠ "") (hiq : req.IQ = some iq)
    (hfind : db.leaderboard.find? (fun x => x.username == u) = some b)
    (hlow : iq < b.IQ) :
    (submitResult req now db).2.leaderboard = db.leaderboard := by
  have h := (submitResult_success req now db u iq hu hne hiq).2.2.2
  rw [hfind] at h
  simpa [show ¬ b.IQ < iq by omega] using h

/-- C8 witness: submitting 60 for a user whose best is 80 leaves the stored best
record (and its timestamp) untouched. -/
theorem C8_lower_score_frame_witness :
    (submitResult ⟨some "a", some 60, 6, 10⟩ 9
        ⟨some [], [⟨"a", 80, 8, 10, 1⟩], []⟩).2.leaderboard = [⟨"a", 80, 8, 10, 1⟩] := by
  exact C8_lower_score_frame ⟨some "a", some 60, 6, 10⟩ 9 ⟨some [], [⟨"a", 80, 8, 10, 1⟩], []⟩
    "a" 60 ⟨"a", 80, 8, 10, 1⟩ rfl (by decide) rfl (by decide) (by decide)

/-- C9: the history reset always succeeds, empties the `results` collection, leaves
the `leaderboard` (and tournament) collections untouched, and is idempotent: a second
reset on the already-absent collection reports success ("History already empty.")
and changes nothing. -/
theorem C9_reset_history (db : DB) :
    (resetHistory db).1 = 200 ∧
    (resetHistory db).2.2.results = none ∧
    (resetHistory db).2.2.leaderboard = db.leaderboard ∧
    (resetHistory db).2.2.tournament_results = db.tournament_results ∧
    resetHistory (resetHistory db).2.2 =
      (200, "History already empty.", (resetHistory db).2.2) := by
  cases h : db.results <;> simp [resetHistory, h]

/-- C10: a submission with score exactly 0 and a non-empty username is accepted with
200, recorded in history like any other submission, and (when the user has no stored
best yet) creates a leaderboard record with score 0 — 0 is a valid, rankable score. -/
theorem C10_zero_score_accepted (req : SubmitRequest) (now : Int) (db : DB)
    (u : String)
    (hu : req.username = some u) (hne : u ≠ "") (hiq : req.IQ = some 0) :
    (submitResult req now db).1 = 200 ∧
    (submitResult req now db).2.results =
      some (db.results.getD [] ++ [⟨u, 0, req.correct, req.totalQuestions, now⟩]) ∧
    ((∀ b ∈ db.leaderboard, b.username ≠ u) →
      ⟨u, 0, req.correct, req.totalQuestions, now⟩ ∈ (submitResult req now db).2.leaderboard) := by
  have h := submitResult_success req now db u 0 hu hne hiq
  refine ⟨h.1, h.2.1, fun habs => ?_⟩
  have hf : db.leaderboard.find? (fun b => b.username == u) = none := by
    rw [List.find?_eq_none]
    intro x hx
    simpa using habs x hx
  have h4 := h.2.2.2
  rw [hf] at h4
  rw [h4]
  simp

/-- C10 witness: submitting `{username: "z", IQ: 0}` to an empty database returns
200, stores the history record, and creates a best-score record with score 0. -/
theorem C10_zero_score_accepted_witness :
    (submitResult ⟨some "z", some 0, 0, 10⟩ 5 ⟨some [], [], []⟩).1 = 200 ∧
    (submitResult ⟨some "z", some 0, 0, 10⟩ 5 ⟨some [], [], []⟩).2.results =
      some [⟨"z", 0, 0, 10, 5⟩] ∧
    (⟨"z", 0, 0, 10, 5⟩ : BestRecord) ∈
      (submitResult ⟨some "z", some 0, 0, 10⟩ 5 ⟨some [], [], []⟩).2.leaderboard := by
  have h := C10_zero_score_accepted ⟨some "z", some 0, 0, 10⟩ 5 ⟨some [], [], []⟩
    "z" rfl (by decide) rfl
  exact ⟨h.1, h.2.1, h.2.2 (by simp)⟩

/-- C1: with no existing BestScoreRecord for the username, one is created with
exactly the submitted values; with an existing one (first match, no earlier match in
the list), its score, correctCount and totalQuestions are overwritten (with a fresh
updatedAt) if the new score is strictly greater, and the collection is unchanged
otherwise. -/
theorem C1_best_score_policy (req : SubmitRequest) (now : Int) (db : DB)
    (u : String) (iq : Int)
    (hu : req.username = some u) (hne : u ≠ "") (hiq : req.IQ = some iq) :
    ((∀ b ∈ db.leaderboard, b.username ≠ u) →
      (submitResult req now db).2.leaderboard =
        db.leaderboard ++ [⟨u, iq, req.correct, req.totalQuestions, now⟩]) ∧
    (∀ pre b post, db.leaderboard = pre ++ b :: post →
      (∀ x ∈ pre, x.username ≠ u) → b.username = u →
      ((b.IQ < iq →
        (submitResult req now db).2.leaderboard =
          pre ++ ⟨u, iq, req.correct, req.totalQuestions, now⟩ :: post) ∧
       (iq ≤ b.IQ →
        (submitResult req now db).2.leaderboard = db.leaderboard))) := by
  have h := (submitResult_success req now db u iq hu hne hiq).2.2.2
  constructor
  · intro habs
    have hf : db.leaderboard.find? (fun b => b.username == u) = none := by
      rw [List.find?_eq_none]
      intro x hx
      simpa using habs x hx
    rw [hf] at h
    exact h
  · intro pre b post hsplit hpre hb
    have hf : db.leaderboard.find? (fun x => x.username == u) = some b := by
      rw [hsplit]; exact find_username_eq_some u pre b post hpre hb
    rw [hf] at h
    have h2 : (submitResult req now db).2.leaderboard =
        (if b.IQ < iq then
          updateFirstBest db.leaderboard u iq req.correct req.totalQuestions now
         else db.leaderboard) := h
    constructor
    · intro hlt
      rw [if_pos hlt] at h2
      rw [h2, hsplit, updateFirstBest_append u iq req.correct req.totalQuestions now
        pre b post hpre hb]
      cases b
      simp only at hb
      subst hb
      rfl
    · intro hle
      rw [if_neg (by omega)] at h2
      exact h2

/-- C1 witness: on an empty database a first submission creates the best record with
the submitted values; a lower resubmission leaves it; a higher one overwrites it. -/
theorem C1_best_score_policy_witness :
    (submitResult ⟨some "a", some 80, 8, 10⟩ 1 ⟨some [], [], []⟩).2.leaderboard =
      [⟨"a", 80, 8, 10, 1⟩] ∧
    (submitResult ⟨some "a", some 60, 6, 10⟩ 2
        ⟨some [], [⟨"a", 80, 8, 10, 1⟩], []⟩).2.leaderboard = [⟨"a", 80, 8, 10, 1⟩] ∧
    (submitResult ⟨some "a", some 95, 9, 10⟩ 3
        ⟨some [], [⟨"a", 80, 8, 10, 1⟩], []⟩).2.leaderboard = [⟨"a", 95, 9, 10, 3⟩] := by
  refine ⟨?_, ?_, ?_⟩
  · exact (C1_best_score_policy ⟨some "a", some 80, 8, 10⟩ 1 ⟨some [], [], []⟩
      "a" 80 rfl (by decide) rfl).1 (by simp)
  · exact ((C1_best_score_policy ⟨some "a", some 60, 6, 10⟩ 2
      ⟨some [], [⟨"a", 80, 8, 10, 1⟩], []⟩ "a" 60 rfl (by decide) rfl).2
      [] ⟨"a", 80, 8, 10, 1⟩ [] rfl (by simp) rfl).2 (by decide)
  · exact ((C1_best_score_policy ⟨some "a", some 95, 9, 10⟩ 3
      ⟨some [], [⟨"a", 80, 8, 10, 1⟩], []⟩ "a" 95 rfl (by decide) rfl).2
      [] ⟨"a", 80, 8, 10, 1⟩ [] rfl (by simp) rfl).1 (by decide)

/-- The derived session id is injective in the configured start instant: changing
the start string changes the id. -/
theorem getTournamentId_inj (s1 s2 : String) (h : s1 ≠ s2) :
    getTournamentId (some s1) ≠ getTournamentId (some s2) := by
  intro he
  apply h
  have hd := congrArg String.data he
  simp [getTournamentId, String.data_append] at hd
  exact String.ext hd

/-- A tournament submission by a user who already has an entry for the current
session id answers 403 and inserts nothing. -/
theorem submitTournamentResult_dup (req : TournamentRequest) (cfg : Option String)
    (now : Int) (db : DB) (u : String)
    (hu : req.username = some u) (hne : u ≠ "")
    (hex : ∃ e ∈ db.tournament_results,
      e.username = u ∧ e.tournamentId = getTournamentId cfg) :
    submitTournamentResult req cfg now db = (403, db) := by
  rcases req with ⟨ou, sc, ts, c, tq⟩
  simp only at hu
  subst hu
  simp only [submitTournamentResult, if_neg hne]
  obtain ⟨e, he, he1, he2⟩ := hex
  have hs : (db.tournament_results.find?
      (fun x => x.username == u && x.tournamentId == getTournamentId cfg)).isSome := by
    rw [List.find?_isSome]
    exact ⟨e, he, by simp [he1, he2]⟩
  cases hf : db.tournament_results.find?
      (fun x => x.username == u && x.tournamentId == getTournamentId cfg) with
  | none => rw [hf] at hs; cases hs
  | some e0 => rfl

/-- A tournament submission by a user with no entry for the current session id
answers 200 and appends one entry stamped with the session id and the current
time. -/
theorem submitTournamentResult_fresh (req : TournamentRequest) (cfg : Option String)
    (now : Int) (db : DB) (u : String)
    (hu : req.username = some u) (hne : u ≠ "")
    (habs : ∀ e ∈ db.tournament_results,
      ¬(e.username = u ∧ e.tournamentId = getTournamentId cfg)) :
    submitTournamentResult req cfg now db =
      (200, { db with tournament_results := db.tournament_results ++
        [⟨u, getTournamentId cfg, req.score, req.correct, req.totalQuestions,
          req.timeSpent, now⟩] }) := by
  rcases req with ⟨ou, sc, ts, c, tq⟩
  simp only at hu
  subst hu
  simp only [submitTournamentResult, if_neg hne]
  have hf : db.tournament_results.find?
      (fun x => x.username == u && x.tournamentId == getTournamentId cfg) = none := by
    rw [List.find?_eq_none]
    intro x hx
    have := habs x hx
    simpa using this
  rw [hf]

/-- C2: a second tournament submission by the same username under the same
configured start answers 403 and inserts nothing; once the configured start (and
hence the derived session id) changes, a submission by the same username succeeds
and inserts one entry stamped with the new session id. -/
theorem C2_tournament_gate (req : TournamentRequest) (db : DB) (u : String)
    (s1 s2 : String) (t1 t2 : Int)
    (hu : req.username = some u) (hne : u ≠ "") (hdiff : s1 ≠ s2)
    (hfresh : ∀ e ∈ db.tournament_results, e.username = u →
      e.tournamentId ≠ getTournamentId (some s1) ∧
      e.tournamentId ≠ getTournamentId (some s2)) :
    (submitTournamentResult req (some s1) t1 db).1 = 200 ∧
    submitTournamentResult req (some s1) t2 (submitTournamentResult req (some s1) t1 db).2 =
      (403, (submitTournamentResult req (some s1) t1 db).2) ∧
    submitTournamentResult req (some s2) t2 (submitTournamentResult req (some s1) t1 db).2 =
      (200, { (submitTournamentResult req (some s1) t1 db).2 with
              tournament_results :=
                (submitTournamentResult req (some s1) t1 db).2.tournament_results ++
                  [⟨u, getTournamentId (some s2), req.score, req.correct,
                    req.totalQuestions, req.timeSpent, t2⟩] }) := by
  have h1 := submitTournamentResult_fresh req (some s1) t1 db u hu hne
    (fun e he hc => (hfresh e he hc.1).1 hc.2)
  rw [h1]
  refine ⟨rfl, ?_, ?_⟩
  · apply submitTournamentResult_dup req (some s1) t2 _ u hu hne
    refine ⟨⟨u, getTournamentId (some s1), req.score, req.correct, req.totalQuestions,
      req.timeSpent, t1⟩, ?_, rfl, rfl⟩
    simp
  · apply submitTournamentResult_fresh req (some s2) t2 _ u hu hne
    intro e he
    simp only [List.mem_append, List.mem_singleton] at he
    rcases he with he | he
    · intro hc
      exact (hfresh e he hc.1).2 hc.2
    · subst he
      intro hc
      exact getTournamentId_inj s1 s2 hdiff hc.2

/-- C2 witness: on an empty database, user "u" submits under start "A" (200), the
same user under "A" again is rejected (403), and under a changed start "B" is
accepted (200). -/
theorem C2_tournament_gate_witness :
    (submitTournamentResult ⟨some "u", 42, 30, 4, 5⟩ (some "A") 1 ⟨some [], [], []⟩).1 = 200 ∧
    (submitTournamentResult ⟨some "u", 42, 30, 4, 5⟩ (some "A") 2
      (submitTournamentResult ⟨some "u", 42, 30, 4, 5⟩ (some "A") 1
        ⟨some [], [], []⟩).2).1 = 403 ∧
    (submitTournamentResult ⟨some "u", 42, 30, 4, 5⟩ (some "B") 2
      (submitTournamentResult ⟨some "u", 42, 30, 4, 5⟩ (some "A") 1
        ⟨some [], [], []⟩).2).1 = 200 := by
  have h := C2_tournament_gate ⟨some "u", 42, 30, 4, 5⟩ ⟨some [], [], []⟩ "u" "A" "B" 1 2
    rfl (by decide) (by decide) (by simp)
  exact ⟨h.1, by rw [h.2.1], by rw [h.2.2]⟩

/-- C6 counterexample: with a configured start of 10, a configured end of 5 and
now = 7 we have now < start, yet the returned status is `ended`, not `upcoming` as
the claim requires — the handler's `now > endTime` check runs last and overwrites
`upcoming`. -/
theorem C6_status_counterexample :
    (7 : Int) < 10 ∧
    (getTournamentStatus (some 10) (some 5) 7).status = TStatus.ended ∧
    (getTournamentStatus (some 10) (some 5) 7).status ≠ TStatus.upcoming := by
  exact ⟨by norm_num, rfl, by decide⟩

/-- C6 (amended): with no configured start the status is always `active` with null
bounds.  With a configured start, the end is the configured end or start + 7 days,
and the status is `ended` whenever now > end (this check takes precedence), else
`upcoming` when now < start, else `active`. -/
theorem C6_tournament_status (startCfg endCfg : Option Int) (now : Int) :
    (startCfg = none →
      getTournamentStatus startCfg endCfg now = ⟨TStatus.active, none, none⟩) ∧
    (∀ st, startCfg = some st →
      (getTournamentStatus startCfg endCfg now).startTime = some st ∧
      (getTournamentStatus startCfg endCfg now).endTime =
        some (endCfg.getD (st + 7 * msPerDay)) ∧
      (endCfg.getD (st + 7 * msPerDay) < now →
        (getTournamentStatus startCfg endCfg now).status = TStatus.ended) ∧
      (now ≤ endCfg.getD (st + 7 * msPerDay) → now < st →
        (getTournamentStatus startCfg endCfg now).status = TStatus.upcoming) ∧
      (st ≤ now → now ≤ endCfg.getD (st + 7 * msPerDay) →
        (getTournamentStatus startCfg endCfg now).status = TStatus.active)) := by
  constructor
  · intro h; subst h; rfl
  · intro st hst
    subst hst
    cases endCfg with
    | none =>
      refine ⟨rfl, rfl, fun h1 => ?_, fun h1 h2 => ?_, fun h1 h2 => ?_⟩ <;>
        simp only [getTournamentStatus, Option.getD] at * <;>
        · first
          | rw [if_pos h1]
          | rw [if_neg (by omega), if_pos h2]
          | rw [if_neg (by omega), if_neg (by omega)]
    | some e =>
      refine ⟨rfl, rfl, fun h1 => ?_, fun h1 h2 => ?_, fun h1 h2 => ?_⟩ <;>
        simp only [getTournamentStatus, Option.getD] at * <;>
        · first
          | rw [if_pos h1]
          | rw [if_neg (by omega), if_pos h2]
          | rw [if_neg (by omega), if_neg (by omega)]

/-- C6 witness: concrete instances of all four amended cases (no config → active;
upcoming before start; active inside the window; ended after the default end of
start + 7 days). -/
theorem C6_tournament_status_witness :
    getTournamentStatus none (some 5) 7 = ⟨TStatus.active, none, none⟩ ∧
    (getTournamentStatus (some 10) (some 20) 7).status = TStatus.upcoming ∧
    (getTournamentStatus (some 10) (some 20) 15).status = TStatus.active ∧
    (getTournamentStatus (some 10) none (10 + 7 * msPerDay + 1)).status = TStatus.ended := by
  refine ⟨?_, ?_, ?_, ?_⟩
  · exact (C6_tournament_status none (some 5) 7).1 rfl
  · exact ((C6_tournament_status (some 10) (some 20) 7).2 10 rfl).2.2.2.1
      (by norm_num) (by norm_num)
  · exact ((C6_tournament_status (some 10) (some 20) 15).2 10 rfl).2.2.2.2
      (by norm_num) (by norm_num)
  · exact ((C6_tournament_status (some 10) none (10 + 7 * msPerDay + 1)).2 10 rfl).2.2.1
      (by norm_num [msPerDay])

/-! ## Order properties of the sort comparators -/

theorem recLE_trans (a b c : ScoreRecord)
    (h1 : recLE a b = true) (h2 : recLE b c = true) : recLE a c = true := by
  simp only [recLE, decide_eq_true_eq] at *
  omega

theorem recLE_total (a b : ScoreRecord) : (recLE a b || recLE b a) = true := by
  simp only [recLE, Bool.or_eq_true, decide_eq_true_eq]
  omega

theorem bestLE_trans (a b c : BestRecord)
    (h1 : bestLE a b = true) (h2 : bestLE b c = true) : bestLE a c = true := by
  simp only [bestLE, decide_eq_true_eq] at *
  omega

theorem bestLE_total (a b : BestRecord) : (bestLE a b || bestLE b a) = true := by
  simp only [bestLE, Bool.or_eq_true, decide_eq_true_eq]
  omega

/-! ## Properties of the `$group`/`$first` stage -/

theorem groupFirst_subset (l : List ScoreRecord) : ∀ r ∈ groupFirst l, r ∈ l := by
  induction l using groupFirst.induct with
  | case1 => intro r hr; simp [groupFirst] at hr
  | case2 x xs ih =>
    intro r hr
    rw [groupFirst] at hr
    rcases List.mem_cons.mp hr with h | h
    · simp [h]
    · exact List.mem_cons_of_mem x (List.mem_of_mem_filter (ih r h))

theorem groupFirst_nodup_username (l : List ScoreRecord) :
    (groupFirst l).Pairwise (fun a b => a.username ≠ b.username) := by
  induction l using groupFirst.induct with
  | case1 => simp [groupFirst]
  | case2 x xs ih =>
    rw [groupFirst]
    refine List.Pairwise.cons (fun r hr => ?_) ih
    have hrf := groupFirst_subset _ r hr
    have hp := List.of_mem_filter hrf
    simp only [bne_iff_ne, ne_eq] at hp
    exact fun heq => hp (heq ▸ rfl)

/-- On a stream sorted by the candidate key, the kept (first) document of a username
group is at least as good as every document of that username: strictly higher IQ, or
equal IQ and an earlier-or-equal timestamp. -/
theorem groupFirst_best (l : List ScoreRecord) :
    l.Pairwise (fun a b => recLE a b = true) →
    ∀ r ∈ groupFirst l, ∀ s ∈ l, s.username = r.username →
      r = s ∨ recLE r s = true := by
  induction l using groupFirst.induct with
  | case1 => intro _ r hr; simp [groupFirst] at hr
  | case2 x xs ih =>
    intro hs r hr s hsmem husr
    rw [groupFirst] at hr
    rcases List.mem_cons.mp hr with h | h
    · subst h
      rcases List.mem_cons.mp hsmem with h2 | h2
      · exact Or.inl h2.symm
      · exact Or.inr (List.rel_of_pairwise_cons hs h2)
    · have hxne : r.username ≠ x.username := by
        have hrf := groupFirst_subset _ r h
        have hp := List.of_mem_filter hrf
        simpa only [bne_iff_ne, ne_eq] using hp
      rcases List.mem_cons.mp hsmem with h2 | h2
      · exact absurd (husr ▸ (h2 ▸ rfl)) (fun he => hxne he)
      · have hsf : s ∈ xs.filter (fun t => t.username != x.username) := by
          refine List.mem_filter.mpr ⟨h2, ?_⟩
          simp only [bne_iff_ne, ne_eq]
          rw [husr]; exact hxne
        exact ih ((List.pairwise_cons.mp hs).2.filter _) r h s hsf husr

theorem groupFirst_covers (l : List ScoreRecord) :
    ∀ s ∈ l, ∃ r ∈ groupFirst l, r.username = s.username := by
  induction l using groupFirst.induct with
  | case1 => intro s hs; cases hs
  | case2 x xs ih =>
    intro s hs
    rcases List.mem_cons.mp hs with h | h
    · exact ⟨x, by rw [groupFirst]; exact List.mem_cons_self x _, by rw [h]⟩
    · by_cases hux : s.username = x.username
      · exact ⟨x, by rw [groupFirst]; exact List.mem_cons_self x _, hux.symm⟩
      · obtain ⟨r, hr, hru⟩ := ih s (List.mem_filter.mpr ⟨h, by simpa using hux⟩)
        exact ⟨r, by rw [groupFirst]; exact List.mem_cons_of_mem x hr, hru⟩

theorem leaderboardWindow_eq (tf : Timeframe) (now : Int) (results : List ScoreRecord) :
    leaderboardWindow tf now results =
      ((groupFirst ((results.filter
          (fun r => decide (windowStart tf now ≤ r.date))).mergeSort recLE)).mergeSort
        recLE).take 50 := rfl

/-- C4: the `all` timeframe returns at most 50 entries, all drawn from the
`leaderboard` (BestScoreRecord) collection, ordered by score descending with ties
broken by updatedAt ascending. -/
theorem C4_all_timeframe (lb : List BestRecord) :
    (∀ r ∈ leaderboardAll lb, r ∈ lb) ∧
    (leaderboardAll lb).Pairwise
      (fun a b => b.IQ < a.IQ ∨ (a.IQ = b.IQ ∧ a.updatedAt ≤ b.updatedAt)) ∧
    (leaderboardAll lb).length ≤ 50 := by
  refine ⟨?_, ?_, ?_⟩
  · intro r hr
    exact List.mem_mergeSort.mp (List.mem_of_mem_take hr)
  · have hs := List.sorted_mergeSort bestLE_trans bestLE_total lb
    have htake := List.Pairwise.sublist (List.take_sublist 50 _) hs
    exact htake.imp (fun h => by simpa only [bestLE, decide_eq_true_eq] using h)
  · exact List.length_take_le 50 _

/-- C3: for every windowed timeframe, the returned entries all lie inside the
window (no earlier record ever appears), carry pairwise distinct usernames, realise
each username's maximum in-window score (earliest such record on ties), are ordered
by score descending with ties broken by timestamp ascending, number at most 50, and
cover every in-window username unless the 50-entry cap is hit. -/
theorem C3_windowed_leaderboard (tf : Timeframe) (now : Int)
    (results : List ScoreRecord) :
    (∀ r ∈ leaderboardWindow tf now results,
      r ∈ results ∧ windowStart tf now ≤ r.date) ∧
    (leaderboardWindow tf now results).Pairwise
      (fun a b => a.username ≠ b.username) ∧
    (∀ r ∈ leaderboardWindow tf now results, ∀ s ∈ results,
      s.username = r.username → windowStart tf now ≤ s.date →
      s.IQ ≤ r.IQ ∧ (s.IQ = r.IQ → r.date ≤ s.date)) ∧
    (leaderboardWindow tf now results).Pairwise
      (fun a b => b.IQ < a.IQ ∨ (a.IQ = b.IQ ∧ a.date ≤ b.date)) ∧
    (leaderboardWindow tf now results).length ≤ 50 ∧
    ((∀ s ∈ results, windowStart tf now ≤ s.date →
        ∃ r ∈ leaderboardWindow tf now results, r.username = s.username) ∨
      (leaderboardWindow tf now results).length = 50) := by
  rw [leaderboardWindow_eq]
  have hmemG : ∀ r, r ∈ ((groupFirst ((results.filter
      (fun x => decide (windowStart tf now ≤ x.date))).mergeSort recLE)).mergeSort
        recLE).take 50 →
      r ∈ groupFirst ((results.filter
        (fun x => decide (windowStart tf now ≤ x.date))).mergeSort recLE) :=
    fun r hr => List.mem_mergeSort.mp (List.mem_of_mem_take hr)
  have hmemM : ∀ r, r ∈ groupFirst ((results.filter
      (fun x => decide (windowStart tf now ≤ x.date))).mergeSort recLE) →
      r ∈ results.filter (fun x => decide (windowStart tf now ≤ x.date)) :=
    fun r hr => List.mem_mergeSort.mp (groupFirst_subset _ r hr)
  refine ⟨?_, ?_, ?_, ?_, ?_, ?_⟩
  · intro r hr
    have hm := hmemM r (hmemG r hr)
    obtain ⟨h1, h2⟩ := List.mem_filter.mp hm
    exact ⟨h1, of_decide_eq_true h2⟩
  · have hG := groupFirst_nodup_username ((results.filter
      (fun x => decide (windowStart tf now ≤ x.date))).mergeSort recLE)
    have hPerm := List.mergeSort_perm (groupFirst ((results.filter
      (fun x => decide (windowStart tf now ≤ x.date))).mergeSort recLE)) recLE
    have hMS := (hPerm.pairwise_iff (fun h => Ne.symm h)).mpr hG
    exact List.Pairwise.sublist (List.take_sublist 50 _) hMS
  · intro r hr s hs husr hdate
    have hrG := hmemG r hr
    have hsorted := List.sorted_mergeSort recLE_trans recLE_total
      (results.filter (fun x => decide (windowStart tf now ≤ x.date)))
    have hsmem : s ∈ (results.filter
        (fun x => decide (windowStart tf now ≤ x.date))).mergeSort recLE :=
      List.mem_mergeSort.mpr (List.mem_filter.mpr ⟨hs, decide_eq_true hdate⟩)
    rcases groupFirst_best _ hsorted r hrG s hsmem husr with h | h
    · subst h; exact ⟨le_refl _, fun _ => le_refl _⟩
    · simp only [recLE, decide_eq_true_eq] at h
      constructor
      · omega
      · intro he; omega
  · have hs := List.sorted_mergeSort recLE_trans recLE_total
      (groupFirst ((results.filter
        (fun x => decide (windowStart tf now ≤ x.date))).mergeSort recLE))
    have htake := List.Pairwise.sublist (List.take_sublist 50 _) hs
    exact htake.imp (fun h => by simpa only [recLE, decide_eq_true_eq] using h)
  · exact List.length_take_le 50 _
  · by_cases hlen : (groupFirst ((results.filter
        (fun x => decide (windowStart tf now ≤ x.date))).mergeSort recLE)).length ≤ 50
    · left
      intro s hs hdate
      have hsmem : s ∈ (results.filter
          (fun x => decide (windowStart tf now ≤ x.date))).mergeSort recLE :=
        List.mem_mergeSort.mpr (List.mem_filter.mpr ⟨hs, decide_eq_true hdate⟩)
      obtain ⟨r, hr, hru⟩ := groupFirst_covers _ s hsmem
      refine ⟨r, ?_, hru⟩
      rw [List.take_of_length_le (by rw [List.length_mergeSort]; exact hlen)]
      exact List.mem_mergeSort.mpr hr
    · right
      rw [List.length_take, List.length_mergeSort]
      omega

/-- C4 witness: on a one-record leaderboard collection the query returns that
record, within the 50-entry cap. -/
theorem C4_all_timeframe_witness :
    (⟨"a", 80, 8, 10, 1⟩ : BestRecord) ∈ [(⟨"a", 80, 8, 10, 1⟩ : BestRecord)] ∧
    (leaderboardAll [(⟨"a", 80, 8, 10, 1⟩ : BestRecord)]).length ≤ 50 := by
  have h := C4_all_timeframe [(⟨"a", 80, 8, 10, 1⟩ : BestRecord)]
  have heval : leaderboardAll [(⟨"a", 80, 8, 10, 1⟩ : BestRecord)] =
      [⟨"a", 80, 8, 10, 1⟩] := by
    simp [leaderboardAll]
  exact ⟨h.1 ⟨"a", 80, 8, 10, 1⟩ (by rw [heval]; simp), h.2.2⟩

/-- C3 witness: with a single in-window history record, the windowed query covers
that username (or would have hit the 50-entry cap). -/
theorem C3_windowed_leaderboard_witness :
    (∃ r ∈ leaderboardWindow Timeframe.weekly (7 * msPerDay + 200)
        [⟨"a", 50, 0, 0, 205⟩], r.username = "a") ∨
      (leaderboardWindow Timeframe.weekly (7 * msPerDay + 200)
        [⟨"a", 50, 0, 0, 205⟩]).length = 50 := by
  rcases (C3_windowed_leaderboard Timeframe.weekly (7 * msPerDay + 200)
      [⟨"a", 50, 0, 0, 205⟩]).2.2.2.2.2 with h | h
  · exact Or.inl (h ⟨"a", 50, 0, 0, 205⟩ (by simp) (by decide))
  · exact Or.inr h

end Concero
